import Mathlib

/-!
Verification of the FL_PathAnimator path-animation core
(`src/nodes/FL_PathAnimator.py`).

The Python source is shallowly embedded here: coordinates are real numbers
(`math.sqrt` is `Real.sqrt`), Python lists are `List`, Python dict path
records are the structure `PathRec` (its `.get` defaults are the structure's
default fields), fallible parsing is `Except`/`Option`, and Python's builtin
`round` (round-half-to-even) is `pyRound`.  Each definition mirrors the
source function of the same name; helper walkers (`resampleWalk`,
`interpWalk`) are the source's inner `for` loops written as structural
recursion, with the `for ... else` fallback modelled by `Option`.
-/

namespace PathAnimator

noncomputable section

/-- A 2-D point, the `{x, y}` dicts of the source. -/
@[ext]
structure Pt where
  x : ℝ
  y : ℝ

/-- Euclidean length of the segment from `p` to `q`:
`math.sqrt(dx * dx + dy * dy)` with `dx = q.x - p.x`, `dy = q.y - p.y`. -/
def segLen (p q : Pt) : ℝ :=
  Real.sqrt ((q.x - p.x) * (q.x - p.x) + (q.y - p.y) * (q.y - p.y))

/-- The list of consecutive segment lengths of a polyline. -/
def segLens : List Pt → List ℝ
  | p :: q :: rest => segLen p q :: segLens (q :: rest)
  | _ => []

/-- `get_path_arc_length` (source lines 225-234): total arc length, `0.0`
for fewer than two points.  The source accumulates the same summands
left-to-right; over `ℝ` that sum equals `List.sum`. -/
def get_path_arc_length (points : List Pt) : ℝ :=
  (segLens points).sum

/-- Linear interpolation inside one segment:
`points[j] + t * (points[j+1] - points[j])`, componentwise, exactly as both
source loops write it. -/
def lerpPt (p q : Pt) (t : ℝ) : Pt :=
  ⟨p.x + t * (q.x - p.x), p.y + t * (q.y - p.y)⟩

/-- The inner `for j` loop of `resample_path_uniform` (source lines 206-218):
walk the segments with running cumulative start `c` (so `c = cum[j]` and
`c + L = cum[j+1]`), and at the first segment with
`cum[j] <= target <= cum[j+1]` interpolate inside it
(`t = (target - cum[j]) / seg` when `seg > 0`, else `t = 0`).
`none` is the loop's `else:` fallback (no segment matched). -/
def resampleWalk (target : ℝ) : ℝ → List Pt → Option Pt
  | c, p :: q :: rest =>
    let L := segLen p q
    if c ≤ target ∧ target ≤ c + L then
      some (lerpPt p q (if L > 0 then (target - c) / L else 0))
    else
      resampleWalk target (c + L) (q :: rest)
  | _, _ => none

/-- The inner `for i` loop of `interpolate_path` (source lines 268-276):
same walk, but the segment test is `current + seg >= target` and the walk
falls through (`none`) past the last segment. -/
def interpWalk (target : ℝ) : ℝ → List Pt → Option Pt
  | c, p :: q :: rest =>
    let L := segLen p q
    if c + L ≥ target then
      some (lerpPt p q (if L > 0 then (target - c) / L else 0))
    else
      interpWalk target (c + L) (q :: rest)
  | _, _ => none

/-- `resample_path_uniform` (source lines 162-223). -/
def resample_path_uniform (points : List Pt) (num_samples : ℕ) : List Pt :=
  match points with
  | [] => []
  | [p] => List.replicate num_samples p
  | p :: q :: rest =>
    let total_length := get_path_arc_length (p :: q :: rest)
    if total_length = 0 then List.replicate num_samples p
    else
      (List.range num_samples).map fun (i : ℕ) =>
        let target_length : ℝ :=
          if num_samples = 1 then 0
          else ((i : ℝ) / ((num_samples : ℝ) - 1)) * total_length
        (resampleWalk target_length 0 (p :: q :: rest)).getD
          ((p :: q :: rest).getLast (by simp))

/-- `interpolate_path` (source lines 236-279). -/
def interpolate_path (points : List Pt) (t : ℝ) : Pt :=
  match points with
  | [] => ⟨0, 0⟩
  | [p] => p
  | p :: q :: rest =>
    let total_length := get_path_arc_length (p :: q :: rest)
    if total_length = 0 then p
    else
      (interpWalk (t * total_length) 0 (p :: q :: rest)).getD
        ((p :: q :: rest).getLast (by simp))

/-- `apply_interpolation` (source lines 31-43). -/
def apply_interpolation (t : ℝ) (interpolation_type : String) : ℝ :=
  if interpolation_type = "ease-in" then t * t
  else if interpolation_type = "ease-out" then t * (2 - t)
  else if interpolation_type = "ease-in-out" then
    if t < 0.5 then 2 * t * t else -1 + (4 - 2 * t) * t
  else t

/-- The global timeline override (source lines 371-384): `some (start, end)`
when active (`start_time_percent != 0.0 or end_time_percent != 100.0`),
`none` when inactive. -/
def globalWindow (start_time_percent end_time_percent : ℝ) : Option (ℝ × ℝ) :=
  if start_time_percent ≠ 0 ∨ end_time_percent ≠ 100 then
    let s0 := max 0 (min 1 (start_time_percent / 100))
    let e0 := max 0 (min 1 (end_time_percent / 100))
    let s1 := if s0 > e0 then e0 else s0
    let e1 := if s0 > e0 then s0 else e0
    let e2 := if s1 = e1 then min 1 (s1 + 0.01) else e1
    some (s1, e2)
  else
    none

/-- One path record of the parsed `paths_data`, with the defaults the source
supplies through `dict.get` (source lines 410-414, 333). -/
structure PathRec where
  points : List Pt
  startTime : ℝ := 0
  endTime : ℝ := 1
  interpolation : String := "linear"
  visibilityMode : String := "pop"
  isSinglePoint : Bool := false

/-- The running-sum construction of the rescale step (source lines 361-368):
`prev` is `new_points[-1]`, `origPrev` is `points[i - 1]`. -/
def deltaScaleAux (scale_factor : ℝ) : Pt → Pt → List Pt → List Pt
  | _, _, [] => []
  | prev, origPrev, p :: rest =>
    let np : Pt := ⟨prev.x + (p.x - origPrev.x) * scale_factor,
                    prev.y + (p.y - origPrev.y) * scale_factor⟩
    np :: deltaScaleAux scale_factor np p rest

/-- Delta-based scaling: first point kept, each inter-point displacement
multiplied by `scale_factor` and re-accumulated (source lines 361-369). -/
def deltaScale (scale_factor : ℝ) : List Pt → List Pt
  | [] => []
  | p :: rest => p :: deltaScaleAux scale_factor p p rest

/-- The path length scaling stage for one path (source lines 327-369). -/
def rescalePath (override_path_length : ℤ) (path_length_multiplier : ℝ)
    (path : PathRec) : PathRec :=
  let points := path.points
  if 1 < points.length ∧ path.isSinglePoint = false then
    let original_length := get_path_arc_length points
    if original_length ≤ 0 then path
    else
      let effective_override : ℤ :=
        if 0 < override_path_length then override_path_length else -1
      let base_length : ℝ :=
        if 0 < effective_override then (effective_override : ℝ) else original_length
      let target_length := base_length * path_length_multiplier
      if |target_length - original_length| < 1 / 1000000 then path
      else
        { path with points := deltaScale (target_length / original_length) points }
  else path

/-- The per-path, per-frame rendering decision (source lines 399-447):
`none` when the path draws nothing this frame, otherwise
`some (center, rotation)` of the drawn shape. -/
def renderDecision (points : List Pt) (interpolation visibilityMode : String)
    (start_time end_time global_t rotation_speed : ℝ) : Option (Pt × ℝ) :=
  if points.length = 0 then none
  else
    let is_in_timeline := start_time ≤ global_t ∧ global_t ≤ end_time
    if visibilityMode = "pop" ∧ ¬ is_in_timeline then none
    else if is_in_timeline ∧ end_time > start_time then
      let local_t := (global_t - start_time) / (end_time - start_time)
      let eased_t := apply_interpolation local_t interpolation
      some (interpolate_path points eased_t, rotation_speed * eased_t * 360)
    else if visibilityMode = "static" then
      if global_t < start_time then some (interpolate_path points 0, 0)
      else some (interpolate_path points 1, rotation_speed * 360)
    else some (interpolate_path points 0, 0)

/-- `global_t = frame / max(frame_count - 1, 1)` (source line 396); the `ℕ`
truncated subtraction agrees with Python's `max(frame_count - 1, 1)` for
every `frame_count ≥ 0`. -/
def frameGlobalT (frame frame_count : ℕ) : ℝ :=
  (frame : ℝ) / ((max (frame_count - 1) 1 : ℕ) : ℝ)

/-- Python's builtin `round` (round-half-to-even) on a real argument. -/
def pyRound (x : ℝ) : ℤ :=
  if Int.fract x = 1 / 2 then 2 * round (x / 2) else round x

/-- `{"x": int(round(p["x"])), "y": int(round(p["y"]))}` (source line 501). -/
def roundPt (p : Pt) : ℤ × ℤ :=
  (pyRound p.x, pyRound p.y)

/-- One exported coordinate track (source lines 481-505).  The window
indices are nonnegative because the global window lies in `[0, 1]`, so the
`ℤ → ℕ` coercion and `drop`/`take` model the Python slice
`resampled_points[start_idx:end_idx + 1]` exactly. -/
def exportTrack (globalWin : Option (ℝ × ℝ)) (path : PathRec) : List (ℤ × ℤ) :=
  let points := path.points
  let resampled := resample_path_uniform points 121
  let final :=
    match globalWin with
    | some (gs, ge) =>
      if 1 < points.length ∧ path.isSinglePoint = false then
        let start_idx := (pyRound (gs * 120)).toNat
        let end_idx0 := (pyRound (ge * 120)).toNat
        let end_idx := if end_idx0 ≤ start_idx then start_idx + 1 else end_idx0
        let windowed := (resampled.drop start_idx).take (end_idx + 1 - start_idx)
        if 2 ≤ windowed.length then resample_path_uniform windowed 121 else resampled
      else resampled
    | none => resampled
  final.map roundPt

/-- The whole exporter loop (source lines 480-505): one track per path, in
input order. -/
def coordTracks (globalWin : Option (ℝ × ℝ)) (paths : List PathRec) :
    List (List (ℤ × ℤ)) :=
  paths.map (exportTrack globalWin)

/-- The timeline window a path uses in the frame loop (source lines
405-411): the global override when active, else the path's own fields. -/
def pathWindow (globalWin : Option (ℝ × ℝ)) (path : PathRec) : ℝ × ℝ :=
  match globalWin with
  | some w => w
  | none => (path.startTime, path.endTime)

/-- All shapes drawn into one frame, as (center, rotation) pairs in path
order (source lines 399-447; the PIL rasterization itself is an external
graphics library and is abstracted to the list of draw calls). -/
def renderFrame (globalWin : Option (ℝ × ℝ)) (rotation_speed : ℝ)
    (paths : List PathRec) (global_t : ℝ) : List (Pt × ℝ) :=
  paths.filterMap fun path =>
    renderDecision path.points path.interpolation path.visibilityMode
      (pathWindow globalWin path).1 (pathWindow globalWin path).2
      global_t rotation_speed

/-- Canvas-to-frame coordinate scaling of one path (source lines 310-325). -/
def scalePath (scale_x scale_y : ℝ) (path : PathRec) : PathRec :=
  { path with points := path.points.map fun p => ⟨p.x * scale_x, p.y * scale_y⟩ }

/-- Strip leading and trailing spaces, Python `str.strip()` for the space
character used in the color syntax. -/
def stripSpaces (s : List Char) : List Char :=
  ((s.dropWhile (· = ' ')).reverse.dropWhile (· = ' ')).reverse

/-- The numeric value of a nonempty all-digit string, `none` otherwise. -/
def digitsVal : List Char → Option ℕ
  | [] => none
  | [c] => if c.isDigit then some (c.toNat - 48) else none
  | c :: rest =>
    if c.isDigit then (digitsVal rest).map (fun n => (c.toNat - 48) * 10 ^ rest.length + n)
    else none

/-- Python `int(s)` on a stripped string: optional sign then digits;
`none` models the `ValueError` it raises otherwise. -/
def pyInt : List Char → Option ℤ
  | s =>
    match stripSpaces s with
    | '-' :: rest => (digitsVal rest).map (fun n => -(n : ℤ))
    | '+' :: rest => (digitsVal rest).map (fun n => (n : ℤ))
    | t => (digitsVal t).map (fun n => (n : ℤ))

/-- Split on the comma character, Python `str.split(',')`. -/
def splitComma : List Char → List (List Char)
  | [] => [[]]
  | c :: rest =>
    if c = ',' then [] :: splitComma rest
    else
      match splitComma rest with
      | g :: gs => (c :: g) :: gs
      | [] => [[c]]

/-- `parse_color` (source lines 18-29) on a string (as its character list).
A comma-containing string is split and each part fed to `int(...)`: a part
`int` cannot parse raises `ValueError`, which nothing catches (`Except.error`).
Any other string goes to `ImageColor.getrgb` (the abstract `namedColor?`),
whose failure IS caught and replaced by white `(255, 255, 255)`. -/
def parse_color (namedColor? : List Char → Option (ℤ × ℤ × ℤ))
    (color : List Char) : Except Unit (List ℤ) :=
  if color.contains ',' then
    match (splitComma color).mapM pyInt with
    | some vals => .ok vals
    | none => .error ()
  else
    .ok (match namedColor? color with
         | some (r, g, b) => [r, g, b]
         | none => [255, 255, 255])

/-- `animate_paths` (source lines 281-512), at the level of this embedding:
colors are parsed first (uncaught `ValueError` aborts the call), an
unparsable paths payload becomes the empty path set, paths are scaled,
rescaled, and the frame loop and the exporter run.  Raster frames are
modelled by their lists of draw calls; the mask sequence has one mask per
frame by construction (source lines 469-472), so frame and mask counts
coincide in the model. -/
def animate_paths (namedColor? : List Char → Option (ℤ × ℤ × ℤ))
    (shape_color bg_color border_color : List Char)
    (parsedPaths : Except Unit (List PathRec))
    (frame_count : ℕ) (scale_x scale_y : ℝ)
    (start_time_percent end_time_percent : ℝ)
    (override_path_length : ℤ) (path_length_multiplier rotation_speed : ℝ) :
    Except Unit (List (List (Pt × ℝ)) × List (List (ℤ × ℤ))) :=
  match parse_color namedColor? shape_color, parse_color namedColor? bg_color,
        parse_color namedColor? border_color with
  | .ok _, .ok _, .ok _ =>
    let paths0 := match parsedPaths with | .ok l => l | .error _ => []
    let scaled := paths0.map (scalePath scale_x scale_y)
    let rescaled := scaled.map (rescalePath override_path_length path_length_multiplier)
    let globalWin := globalWindow start_time_percent end_time_percent
    let frames := (List.range frame_count).map fun f =>
      renderFrame globalWin rotation_speed rescaled (frameGlobalT f frame_count)
    .ok (frames, coordTracks globalWin rescaled)
  | _, _, _ => .error ()

/-- Spec-side reference: the position at cumulative arc length `s` along a
polyline — walk segments, consume `s`, and linearly interpolate inside the
segment where `s` runs out. -/
def pointAtArc : List Pt → ℝ → Pt
  | [], _ => ⟨0, 0⟩
  | [p], _ => p
  | p :: q :: rest, s =>
    let L := segLen p q
    if s ≤ L then lerpPt p q (if L > 0 then s / L else 0)
    else pointAtArc (q :: rest) (s - L)

/-! ### Basic geometry lemmas -/

lemma segLen_eq_abs (p q : Pt) :
    segLen p q = Complex.abs ⟨q.x - p.x, q.y - p.y⟩ := by
  rw [segLen, Complex.abs_apply, Complex.normSq_mk]

lemma segLen_nonneg (p q : Pt) : 0 ≤ segLen p q :=
  Real.sqrt_nonneg _

lemma segLen_self (p : Pt) : segLen p p = 0 := by
  simp [segLen]

lemma segLen_eq_zero_iff {p q : Pt} : segLen p q = 0 ↔ q = p := by
  rw [segLen, Real.sqrt_eq_zero']
  constructor
  · intro h
    have hx : (q.x - p.x) * (q.x - p.x) + (q.y - p.y) * (q.y - p.y) = 0 :=
      le_antisymm h (add_nonneg (mul_self_nonneg _) (mul_self_nonneg _))
    have h1 : q.x - p.x = 0 := by nlinarith [mul_self_nonneg (q.x - p.x), mul_self_nonneg (q.y - p.y)]
    have h2 : q.y - p.y = 0 := by nlinarith [mul_self_nonneg (q.x - p.x), mul_self_nonneg (q.y - p.y)]
    ext
    · linarith
    · linarith
  · rintro rfl
    simp

lemma segLen_triangle (p q r : Pt) :
    segLen p r ≤ segLen p q + segLen q r := by
  rw [segLen_eq_abs, segLen_eq_abs, segLen_eq_abs]
  have h : (⟨r.x - p.x, r.y - p.y⟩ : ℂ) =
      (⟨q.x - p.x, q.y - p.y⟩ : ℂ) + (⟨r.x - q.x, r.y - q.y⟩ : ℂ) := by
    apply Complex.ext <;> simp
  rw [h]
  exact Complex.abs.add_le _ _

lemma lerpPt_zero (p q : Pt) : lerpPt p q 0 = p := by
  ext <;> simp [lerpPt]

lemma lerpPt_one (p q : Pt) : lerpPt p q 1 = q := by
  ext <;> simp [lerpPt]

lemma segLen_lerp (p q : Pt) (s t : ℝ) :
    segLen (lerpPt p q s) (lerpPt p q t) = |t - s| * segLen p q := by
  unfold segLen lerpPt
  dsimp only
  rw [show p.x + t * (q.x - p.x) - (p.x + s * (q.x - p.x)) = (t - s) * (q.x - p.x) by ring,
      show p.y + t * (q.y - p.y) - (p.y + s * (q.y - p.y)) = (t - s) * (q.y - p.y) by ring,
      show (t - s) * (q.x - p.x) * ((t - s) * (q.x - p.x)) +
            (t - s) * (q.y - p.y) * ((t - s) * (q.y - p.y)) =
          (t - s) ^ 2 * ((q.x - p.x) * (q.x - p.x) + (q.y - p.y) * (q.y - p.y)) by ring,
      Real.sqrt_mul (sq_nonneg _), Real.sqrt_sq_eq_abs]

lemma segLens_cons_cons (p q : Pt) (rest : List Pt) :
    segLens (p :: q :: rest) = segLen p q :: segLens (q :: rest) := rfl

lemma arcLen_cons_cons (p q : Pt) (rest : List Pt) :
    get_path_arc_length (p :: q :: rest) = segLen p q + get_path_arc_length (q :: rest) := by
  rw [get_path_arc_length, segLens_cons_cons, List.sum_cons, get_path_arc_length]

lemma arcLen_nonneg : ∀ ps : List Pt, 0 ≤ get_path_arc_length ps
  | [] => le_refl 0
  | [_] => le_refl 0
  | p :: q :: rest => by
    have := arcLen_nonneg (q :: rest)
    rw [arcLen_cons_cons]
    exact add_nonneg (segLen_nonneg p q) this

/-! ### Walkers and arc-length positions -/

lemma resampleWalk_cons_cons (target c : ℝ) (p q : Pt) (rest : List Pt) :
    resampleWalk target c (p :: q :: rest) =
      if c ≤ target ∧ target ≤ c + segLen p q then
        some (lerpPt p q (if segLen p q > 0 then (target - c) / segLen p q else 0))
      else resampleWalk target (c + segLen p q) (q :: rest) := rfl

lemma interpWalk_cons_cons (target c : ℝ) (p q : Pt) (rest : List Pt) :
    interpWalk target c (p :: q :: rest) =
      if c + segLen p q ≥ target then
        some (lerpPt p q (if segLen p q > 0 then (target - c) / segLen p q else 0))
      else interpWalk target (c + segLen p q) (q :: rest) := rfl

lemma pointAtArc_cons_cons (s : ℝ) (p q : Pt) (rest : List Pt) :
    pointAtArc (p :: q :: rest) s =
      if s ≤ segLen p q then lerpPt p q (if segLen p q > 0 then s / segLen p q else 0)
      else pointAtArc (q :: rest) (s - segLen p q) := rfl

lemma resampleWalk_eq_interpWalk (target : ℝ) :
    ∀ (ps : List Pt) (c : ℝ), c ≤ target →
      resampleWalk target c ps = interpWalk target c ps
  | [], _, _ => rfl
  | [_], _, _ => rfl
  | p :: q :: rest, c, h => by
    rw [resampleWalk_cons_cons, interpWalk_cons_cons]
    by_cases hc : target ≤ c + segLen p q
    · rw [if_pos ⟨h, hc⟩, if_pos hc]
    · rw [if_neg (fun hand => hc hand.2), if_neg hc]
      exact resampleWalk_eq_interpWalk target (q :: rest) (c + segLen p q)
        (le_of_lt (not_le.mp hc))

lemma resampleWalk_getD_eq_pointAtArc :
    ∀ (q : Pt) (rest : List Pt) (c target : ℝ), c ≤ target →
      (resampleWalk target c (q :: rest)).getD ((q :: rest).getLast (by simp)) =
        pointAtArc (q :: rest) (target - c)
  | _, [], _, _, _ => rfl
  | q, r :: rest, c, target, h => by
    rw [resampleWalk_cons_cons, pointAtArc_cons_cons]
    by_cases hc : target ≤ c + segLen q r
    · rw [if_pos ⟨h, hc⟩, Option.getD_some,
        if_pos (show target - c ≤ segLen q r by linarith)]
    · rw [if_neg (show ¬(c ≤ target ∧ target ≤ c + segLen q r) from fun hand => hc hand.2),
        if_neg (show ¬(target - c ≤ segLen q r) by intro hle; exact hc (by linarith))]
      have hrec := resampleWalk_getD_eq_pointAtArc r rest (c + segLen q r) target
        (le_of_lt (not_le.mp hc))
      have hlast : (q :: r :: rest).getLast (by simp) = (r :: rest).getLast (by simp) :=
        List.getLast_cons (by simp)
      rw [hlast, hrec]
      congr 1
      ring

lemma map_congr_mem {α β : Type} {f g : α → β} :
    ∀ {l : List α}, (∀ a ∈ l, f a = g a) → l.map f = l.map g
  | [], _ => rfl
  | a :: l, h => by
    rw [List.map_cons, List.map_cons, h a (by simp),
      map_congr_mem (fun b hb => h b (by simp [hb]))]

lemma pointAtArc_zero (q : Pt) (rest : List Pt) : pointAtArc (q :: rest) 0 = q := by
  cases rest with
  | nil => rfl
  | cons r rest =>
    rw [pointAtArc_cons_cons, if_pos (segLen_nonneg q r)]
    by_cases hL : segLen q r > 0
    · rw [if_pos hL, zero_div, lerpPt_zero]
    · rw [if_neg hL, lerpPt_zero]

lemma arcLen_zero_all_eq : ∀ (q : Pt) (rest : List Pt),
    get_path_arc_length (q :: rest) = 0 → (q :: rest).getLast (by simp) = q
  | _, [], _ => rfl
  | q, r :: rest, h => by
    rw [arcLen_cons_cons] at h
    have h0 := arcLen_nonneg (r :: rest)
    have h1 := segLen_nonneg q r
    have hseg : segLen q r = 0 := by linarith
    have htail : get_path_arc_length (r :: rest) = 0 := by linarith
    have hlast : (q :: r :: rest).getLast (by simp) = (r :: rest).getLast (by simp) :=
      List.getLast_cons (by simp)
    rw [hlast, arcLen_zero_all_eq r rest htail]
    exact segLen_eq_zero_iff.mp hseg

lemma pointAtArc_arcLen : ∀ (q : Pt) (rest : List Pt),
    pointAtArc (q :: rest) (get_path_arc_length (q :: rest)) = (q :: rest).getLast (by simp)
  | _, [] => rfl
  | q, r :: rest => by
    rw [arcLen_cons_cons, pointAtArc_cons_cons]
    have hT0 : 0 ≤ get_path_arc_length (r :: rest) := arcLen_nonneg _
    have hL0 : 0 ≤ segLen q r := segLen_nonneg q r
    have hlast : (q :: r :: rest).getLast (by simp) = (r :: rest).getLast (by simp) :=
      List.getLast_cons (by simp)
    by_cases h : segLen q r + get_path_arc_length (r :: rest) ≤ segLen q r
    · have hTz : get_path_arc_length (r :: rest) = 0 := by linarith
      rw [if_pos h, hlast, arcLen_zero_all_eq r rest hTz]
      by_cases hL : segLen q r > 0
      · rw [if_pos hL, hTz, add_zero, div_self (ne_of_gt hL), lerpPt_one]
      · have hLz : segLen q r = 0 := by linarith
        rw [if_neg hL, lerpPt_zero]
        exact (segLen_eq_zero_iff.mp hLz).symm
    · rw [if_neg h, add_sub_cancel_left, pointAtArc_arcLen r rest, hlast]

/-! ### Structure of `resample_path_uniform` -/

lemma resample_eq_map (p q : Pt) (rest : List Pt)
    (htot : get_path_arc_length (p :: q :: rest) ≠ 0) (n : ℕ) :
    resample_path_uniform (p :: q :: rest) n =
      (List.range n).map fun (i : ℕ) =>
        pointAtArc (p :: q :: rest)
          (((i : ℝ) / ((n : ℝ) - 1)) * get_path_arc_length (p :: q :: rest)) := by
  have htotpos : 0 < get_path_arc_length (p :: q :: rest) :=
    lt_of_le_of_ne (arcLen_nonneg _) (Ne.symm htot)
  rw [resample_path_uniform]
  simp only [if_neg htot]
  apply map_congr_mem
  intro i hi
  have hi' : i < n := List.mem_range.mp hi
  by_cases hn : n = 1
  · subst hn
    have hi0 : i = 0 := Nat.lt_one_iff.mp hi'
    subst hi0
    rw [if_pos rfl, resampleWalk_getD_eq_pointAtArc p (q :: rest) 0 0 le_rfl]
    norm_num
  · rw [if_neg hn]
    have hn1 : 1 ≤ n := Nat.one_le_iff_ne_zero.mpr (by rintro rfl; exact Nat.not_lt_zero i hi')
    have hden : (0 : ℝ) ≤ (n : ℝ) - 1 := by
      have : (1 : ℝ) ≤ (n : ℝ) := by exact_mod_cast hn1
      linarith
    have htarget : 0 ≤ ((i : ℝ) / ((n : ℝ) - 1)) * get_path_arc_length (p :: q :: rest) :=
      mul_nonneg (div_nonneg (Nat.cast_nonneg i) hden) (le_of_lt htotpos)
    rw [resampleWalk_getD_eq_pointAtArc p (q :: rest) 0 _ htarget, sub_zero]

lemma resample_length : ∀ (ps : List Pt), ps ≠ [] → ∀ (n : ℕ),
    (resample_path_uniform ps n).length = n
  | [], h, _ => absurd rfl h
  | [_], _, n => by simp [resample_path_uniform]
  | p :: q :: rest, _, n => by
    rw [resample_path_uniform]
    by_cases htot : get_path_arc_length (p :: q :: rest) = 0
    · simp only [if_pos htot, List.length_replicate]
    · simp only [if_neg htot, List.length_map, List.length_range]

lemma resample_getElem : ∀ (ps : List Pt), ps ≠ [] → ∀ {n i : ℕ}, i < n →
    (resample_path_uniform ps n)[i]? =
      some (pointAtArc ps (((i : ℝ) / ((n : ℝ) - 1)) * get_path_arc_length ps))
  | [], h, _, _, _ => absurd rfl h
  | [p], _, n, i, hi => by
    rw [resample_path_uniform]
    rw [List.getElem?_eq_getElem (by simpa using hi), List.getElem_replicate]
    rfl
  | p :: q :: rest, _, n, i, hi => by
    by_cases htot : get_path_arc_length (p :: q :: rest) = 0
    · rw [resample_path_uniform]
      simp only [if_pos htot]
      rw [List.getElem?_eq_getElem (by simpa using hi), List.getElem_replicate, htot,
        mul_zero, pointAtArc_zero]
    · rw [resample_eq_map p q rest htot n, List.getElem?_map,
        List.getElem?_range hi, Option.map_some']

/-! ### Claim C1: resampling agrees with continuous interpolation -/

/-- C1: for every non-empty list of points, every `n ≥ 2` and every index
`i < n`, the `i`-th point of `resample_path_uniform points n` equals
`interpolate_path points (i / (n - 1))`: the exporter's fixed-count
resampling and the renderer's continuous arc-length interpolation agree at
every shared parameter, for all paths including those with zero-length
segments. -/
theorem C1_resample_agrees_with_interpolate (ps : List Pt) (n i : ℕ)
    (hps : ps ≠ []) (hn : 2 ≤ n) (hi : i < n) :
    (resample_path_uniform ps n)[i]? =
      some (interpolate_path ps ((i : ℝ) / ((n : ℝ) - 1))) := by
  rcases ps with _ | ⟨p, _ | ⟨q, rest⟩⟩
  · exact absurd rfl hps
  · rw [resample_path_uniform, interpolate_path,
      List.getElem?_eq_getElem (by simpa using hi), List.getElem_replicate]
  · rw [interpolate_path]
    by_cases htot : get_path_arc_length (p :: q :: rest) = 0
    · rw [resample_path_uniform]
      simp only [if_pos htot]
      rw [List.getElem?_eq_getElem (by simpa using hi), List.getElem_replicate]
    · simp only [if_neg htot]
      have htotpos : 0 < get_path_arc_length (p :: q :: rest) :=
        lt_of_le_of_ne (arcLen_nonneg _) (Ne.symm htot)
      have hden : (0 : ℝ) ≤ (n : ℝ) - 1 := by
        have : (2 : ℝ) ≤ (n : ℝ) := by exact_mod_cast hn
        linarith
      have hd : (0 : ℝ) ≤ (i : ℝ) / ((n : ℝ) - 1) * get_path_arc_length (p :: q :: rest) :=
        mul_nonneg (div_nonneg (Nat.cast_nonneg i) hden) (le_of_lt htotpos)
      rw [← resampleWalk_eq_interpWalk _ _ 0 hd,
        resampleWalk_getD_eq_pointAtArc p (q :: rest) 0 _ hd, sub_zero,
        resample_getElem _ (by simp) hi]

/-- Witness for C1 at the two-point path `(0,0)-(3,0)`, `n = 2`, `i = 1`. -/
theorem C1_witness :
    ([⟨0, 0⟩, ⟨3, 0⟩] : List Pt) ≠ [] ∧ 2 ≤ 2 ∧ 1 < 2 ∧
      (resample_path_uniform [⟨0, 0⟩, ⟨3, 0⟩] 2)[1]? =
        some (interpolate_path [⟨0, 0⟩, ⟨3, 0⟩] (((1 : ℕ) : ℝ) / (((2 : ℕ) : ℝ) - 1))) :=
  ⟨by simp, le_refl 2, Nat.one_lt_two,
    C1_resample_agrees_with_interpolate [⟨0, 0⟩, ⟨3, 0⟩] 2 1 (by simp)
      (le_refl 2) Nat.one_lt_two⟩

/-! ### Claim C6: sample count and sample placement -/

/-- C6: for every non-empty point list and `n ≥ 1`,
`resample_path_uniform points n` returns exactly `n` points, the `i`-th
sample sits at cumulative arc length `(i / (n - 1)) * totalLength`
(`the quotient 0/0` for `n = 1` reading as `0`, matching the source's
`target = 0` special case), and a single-point or zero-arc-length path
yields the first point repeated `n` times. -/
theorem C6_resample_count_placement_degenerate (ps : List Pt) (n : ℕ)
    (hps : ps ≠ []) (hn : 1 ≤ n) :
    (resample_path_uniform ps n).length = n ∧
    (∀ i : ℕ, i < n →
      (resample_path_uniform ps n)[i]? =
        some (pointAtArc ps (((i : ℝ) / ((n : ℝ) - 1)) * get_path_arc_length ps))) ∧
    ((ps.length = 1 ∨ get_path_arc_length ps = 0) →
      resample_path_uniform ps n = List.replicate n (ps.head hps)) := by
  refine ⟨resample_length ps hps n, fun i hi => resample_getElem ps hps hi, ?_⟩
  intro hdeg
  rcases ps with _ | ⟨p, _ | ⟨q, rest⟩⟩
  · exact absurd rfl hps
  · rfl
  · rcases hdeg with hlen | htot
    · simp at hlen
    · rw [resample_path_uniform]
      simp only [if_pos htot]
      rfl

/-- Witness for C6 at the degenerate single-point path `[(1,2)]`, `n = 3`. -/
theorem C6_witness :
    (([⟨1, 2⟩] : List Pt) ≠ [] ∧ 1 ≤ 3) ∧
      ((resample_path_uniform [⟨1, 2⟩] 3).length = 3 ∧
        (∀ i : ℕ, i < 3 →
          (resample_path_uniform [⟨1, 2⟩] 3)[i]? =
            some (pointAtArc [⟨1, 2⟩]
              (((i : ℝ) / (((3 : ℕ) : ℝ) - 1)) * get_path_arc_length [⟨1, 2⟩]))) ∧
        ((([⟨1, 2⟩] : List Pt).length = 1 ∨ get_path_arc_length [⟨1, 2⟩] = 0) →
          resample_path_uniform [⟨1, 2⟩] 3 =
            List.replicate 3 (([⟨1, 2⟩] : List Pt).head (by simp)))) :=
  ⟨⟨by simp, by norm_num⟩,
    C6_resample_count_placement_degenerate [⟨1, 2⟩] 3 (by simp) (by norm_num)⟩

/-! ### Claim C7: resampling cannot lengthen a path -/

lemma segLen_lerp_right (p q : Pt) (t : ℝ) :
    segLen (lerpPt p q t) q = |1 - t| * segLen p q := by
  have h := segLen_lerp p q t 1
  rw [lerpPt_one] at h
  exact h

lemma chord_le : ∀ (ps : List Pt) (a b : ℝ), 0 ≤ a → a ≤ b →
    segLen (pointAtArc ps a) (pointAtArc ps b) ≤ b - a
  | [], a, b, _, hab => by
    simpa [pointAtArc, segLen_self] using sub_nonneg.mpr hab
  | [p], a, b, _, hab => by
    simpa [pointAtArc, segLen_self] using sub_nonneg.mpr hab
  | p :: q :: rest, a, b, ha, hab => by
    rw [pointAtArc_cons_cons, pointAtArc_cons_cons]
    have hL0 : 0 ≤ segLen p q := segLen_nonneg p q
    by_cases hbL : b ≤ segLen p q
    · rw [if_pos (le_trans hab hbL), if_pos hbL]
      by_cases hL : segLen p q > 0
      · rw [if_pos hL, if_pos hL, segLen_lerp]
        have habs : |b / segLen p q - a / segLen p q| = (b - a) / segLen p q := by
          rw [div_sub_div_same, abs_of_nonneg (div_nonneg (by linarith) hL0)]
        rw [habs, div_mul_cancel₀ _ (ne_of_gt hL)]
      · rw [if_neg hL, if_neg hL, segLen_self]
        linarith
    · by_cases haL : a ≤ segLen p q
      · rw [if_pos haL, if_neg hbL]
        have h1 : segLen (lerpPt p q (if segLen p q > 0 then a / segLen p q else 0)) q =
            segLen p q - a := by
          by_cases hL : segLen p q > 0
          · rw [if_pos hL, segLen_lerp_right,
              abs_of_nonneg (by rw [sub_nonneg]; exact (div_le_one hL).mpr haL)]
            field_simp
          · have hLz : segLen p q = 0 := le_antisymm (not_lt.mp hL) hL0
            have ha0 : a = 0 := le_antisymm (hLz ▸ haL) ha
            rw [if_neg hL, lerpPt_zero, hLz, ha0, sub_zero]
        have h2 : segLen q (pointAtArc (q :: rest) (b - segLen p q)) ≤
            (b - segLen p q) - 0 := by
          have hq := pointAtArc_zero q rest
          calc segLen q (pointAtArc (q :: rest) (b - segLen p q)) =
              segLen (pointAtArc (q :: rest) 0) (pointAtArc (q :: rest) (b - segLen p q)) := by
                rw [hq]
            _ ≤ (b - segLen p q) - 0 :=
                chord_le (q :: rest) 0 (b - segLen p q) le_rfl (by linarith [not_le.mp hbL])
        have htri := segLen_triangle
          (lerpPt p q (if segLen p q > 0 then a / segLen p q else 0)) q
          (pointAtArc (q :: rest) (b - segLen p q))
        linarith
      · rw [if_neg haL, if_neg hbL]
        have hrec := chord_le (q :: rest) (a - segLen p q) (b - segLen p q)
          (by linarith [not_le.mp haL]) (by linarith)
        linarith

lemma arcLen_pair (p q : Pt) : get_path_arc_length [p, q] = segLen p q := by
  simp [get_path_arc_length, segLens]

lemma arcLen_cons_head (x : Pt) (l : List Pt) (y : Pt) (hy : l.head? = some y) :
    get_path_arc_length (x :: l) = segLen x y + get_path_arc_length l := by
  cases l with
  | nil => simp at hy
  | cons z l =>
    rw [List.head?_cons, Option.some.injEq] at hy
    rw [← hy, arcLen_cons_cons]

lemma arcLen_map_range_le (ps : List Pt) :
    ∀ (m : ℕ) (f : ℕ → ℝ), (∀ j, 0 ≤ f j) → (∀ j, f j ≤ f (j + 1)) →
      get_path_arc_length ((List.range (m + 1)).map fun i => pointAtArc ps (f i)) ≤
        f m - f 0
  | 0, f, _, _ => by
    simp [List.range_succ, get_path_arc_length, segLens]
  | m + 1, f, hnn, hmono => by
    rw [List.range_succ_eq_map, List.map_cons, List.map_map]
    have htail : ((List.range (m + 1)).map
        ((fun i => pointAtArc ps (f i)) ∘ Nat.succ)).head? =
        some (pointAtArc ps (f 1)) := by
      rw [List.range_succ_eq_map, List.map_cons]
      rfl
    rw [arcLen_cons_head _ _ _ htail]
    have h1 : segLen (pointAtArc ps (f 0)) (pointAtArc ps (f 1)) ≤ f 1 - f 0 :=
      chord_le ps (f 0) (f 1) (hnn 0) (hmono 0)
    have h2 : get_path_arc_length ((List.range (m + 1)).map
        ((fun i => pointAtArc ps (f i)) ∘ Nat.succ)) ≤ f (m + 1) - f 1 := by
      have key := arcLen_map_range_le ps m (fun j => f (j + 1))
        (fun j => hnn (j + 1)) (fun j => hmono (j + 1))
      simpa [Function.comp] using key
    linarith

/-- C7: for every path with at least two points and positive total arc
length, and every `n ≥ 1`, the arc length of
`resample_path_uniform points n` is at most the arc length of the original
points (each resampled chord is at most the sub-arc it replaces). -/
theorem C7_resample_arc_length_le (ps : List Pt) (n : ℕ)
    (hlen : 2 ≤ ps.length) (hpos : 0 < get_path_arc_length ps) (hn : 1 ≤ n) :
    get_path_arc_length (resample_path_uniform ps n) ≤ get_path_arc_length ps := by
  rcases ps with _ | ⟨p, _ | ⟨q, rest⟩⟩
  · simp at hlen
  · simp at hlen
  · obtain ⟨m, rfl⟩ : ∃ m, n = m + 1 := ⟨n - 1, (Nat.succ_pred_eq_of_pos hn).symm⟩
    rw [resample_eq_map p q rest (ne_of_gt hpos) (m + 1)]
    have hden : (0 : ℝ) ≤ ((m + 1 : ℕ) : ℝ) - 1 := by
      push_cast
      linarith [Nat.cast_nonneg (α := ℝ) m]
    have hnn : ∀ j : ℕ, 0 ≤ ((j : ℝ) / (((m + 1 : ℕ) : ℝ) - 1)) *
        get_path_arc_length (p :: q :: rest) :=
      fun j => mul_nonneg (div_nonneg (Nat.cast_nonneg j) hden) (le_of_lt hpos)
    have hmono : ∀ j : ℕ, ((j : ℝ) / (((m + 1 : ℕ) : ℝ) - 1)) *
        get_path_arc_length (p :: q :: rest) ≤
        (((j + 1 : ℕ) : ℝ) / (((m + 1 : ℕ) : ℝ) - 1)) *
        get_path_arc_length (p :: q :: rest) := by
      intro j
      apply mul_le_mul_of_nonneg_right _ (le_of_lt hpos)
      rcases eq_or_lt_of_le hden with heq | hlt
      · rw [← heq, div_zero, div_zero]
      · rw [div_le_div_iff_of_pos_right hlt]
        exact_mod_cast Nat.le_succ j
    have hbound := arcLen_map_range_le (p :: q :: rest) m
      (fun j => ((j : ℝ) / (((m + 1 : ℕ) : ℝ) - 1)) * get_path_arc_length (p :: q :: rest))
      hnn hmono
    have hf0 : (((0 : ℕ) : ℝ) / (((m + 1 : ℕ) : ℝ) - 1)) *
        get_path_arc_length (p :: q :: rest) = 0 := by
      norm_num
    have hfm : (((m : ℕ) : ℝ) / (((m + 1 : ℕ) : ℝ) - 1)) *
        get_path_arc_length (p :: q :: rest) ≤ get_path_arc_length (p :: q :: rest) := by
      rcases Nat.eq_zero_or_pos m with rfl | hm
      · norm_num
        exact le_of_lt hpos
      · have hden1 : (((m + 1 : ℕ) : ℝ) - 1) = (m : ℝ) := by
          push_cast
          ring
        rw [hden1, div_self (by exact_mod_cast hm.ne'), one_mul]
    calc get_path_arc_length ((List.range (m + 1)).map fun (i : ℕ) =>
          pointAtArc (p :: q :: rest)
            (((i : ℝ) / (((m + 1 : ℕ) : ℝ) - 1)) * get_path_arc_length (p :: q :: rest)))
        ≤ (((m : ℕ) : ℝ) / (((m + 1 : ℕ) : ℝ) - 1)) *
            get_path_arc_length (p :: q :: rest) -
          (((0 : ℕ) : ℝ) / (((m + 1 : ℕ) : ℝ) - 1)) *
            get_path_arc_length (p :: q :: rest) := hbound
      _ ≤ get_path_arc_length (p :: q :: rest) := by
          rw [hf0, sub_zero]
          exact hfm

/-- Witness for C7 at the two-point path `(0,0)-(3,0)`, `n = 2`. -/
theorem C7_witness :
    (2 ≤ ([⟨0, 0⟩, ⟨3, 0⟩] : List Pt).length ∧
      0 < get_path_arc_length [⟨0, 0⟩, ⟨3, 0⟩] ∧ 1 ≤ 2) ∧
      get_path_arc_length (resample_path_uniform [⟨0, 0⟩, ⟨3, 0⟩] 2) ≤
        get_path_arc_length [⟨0, 0⟩, ⟨3, 0⟩] := by
  have hpos : 0 < get_path_arc_length ([⟨0, 0⟩, ⟨3, 0⟩] : List Pt) := by
    rw [arcLen_pair]
    exact Real.sqrt_pos.mpr (by norm_num)
  exact ⟨⟨by simp, hpos, by norm_num⟩,
    C7_resample_arc_length_le [⟨0, 0⟩, ⟨3, 0⟩] 2 (by simp) hpos (by norm_num)⟩

/-! ### `interpolate_path` through `pointAtArc` -/

lemma interpolate_eq_pointAtArc (ps : List Pt) (hps : ps ≠ []) (t : ℝ) (ht : 0 ≤ t) :
    interpolate_path ps t = pointAtArc ps (t * get_path_arc_length ps) := by
  rcases ps with _ | ⟨p, _ | ⟨q, rest⟩⟩
  · exact absurd rfl hps
  · rfl
  · rw [interpolate_path]
    by_cases htot : get_path_arc_length (p :: q :: rest) = 0
    · rw [if_pos htot, htot, mul_zero, pointAtArc_zero]
    · simp only [if_neg htot]
      have htarget : 0 ≤ t * get_path_arc_length (p :: q :: rest) :=
        mul_nonneg ht (arcLen_nonneg _)
      rw [← resampleWalk_eq_interpWalk _ _ 0 htarget,
        resampleWalk_getD_eq_pointAtArc p (q :: rest) 0 _ htarget, sub_zero]

lemma interpolate_zero (q : Pt) (rest : List Pt) :
    interpolate_path (q :: rest) 0 = q := by
  rw [interpolate_eq_pointAtArc _ (by simp) 0 le_rfl, zero_mul, pointAtArc_zero]

lemma interpolate_one (q : Pt) (rest : List Pt) :
    interpolate_path (q :: rest) 1 = (q :: rest).getLast (by simp) := by
  rw [interpolate_eq_pointAtArc _ (by simp) 1 zero_le_one, one_mul, pointAtArc_arcLen]

/-! ### Claim C3: the global timeline override -/

/-- C3: the override is active iff `start_time_percent ≠ 0` or
`end_time_percent ≠ 100`; when active both percentages are divided by 100
and clamped to `[0, 1]`, swapped when inverted (so the start is the smaller
clamp and the end the larger), and an equal pair forces
`end = min 1 (start + 0.01)`; `(80, 20)` gives `[0.2, 0.8]`, `(50, 50)`
gives `[0.5, 0.51]`; an active window replaces every path's own
`startTime`/`endTime` in the frame loop and an inactive one leaves them. -/
theorem C3_global_timeline_override :
    (∀ sp ep : ℝ, (globalWindow sp ep).isSome ↔ (sp ≠ 0 ∨ ep ≠ 100)) ∧
    (∀ sp ep : ℝ, (sp ≠ 0 ∨ ep ≠ 100) →
      globalWindow sp ep =
        some (min (max 0 (min 1 (sp / 100))) (max 0 (min 1 (ep / 100))),
          if max 0 (min 1 (sp / 100)) = max 0 (min 1 (ep / 100)) then
            min 1 (max 0 (min 1 (sp / 100)) + 0.01)
          else max (max 0 (min 1 (sp / 100))) (max 0 (min 1 (ep / 100))))) ∧
    globalWindow 80 20 = some (0.2, 0.8) ∧
    globalWindow 50 50 = some (0.5, 0.51) ∧
    (∀ (w : ℝ × ℝ) (path : PathRec), pathWindow (some w) path = w) ∧
    (∀ path : PathRec, pathWindow none path = (path.startTime, path.endTime)) := by
  have hchar : ∀ sp ep : ℝ, (sp ≠ 0 ∨ ep ≠ 100) →
      globalWindow sp ep =
        some (min (max 0 (min 1 (sp / 100))) (max 0 (min 1 (ep / 100))),
          if max 0 (min 1 (sp / 100)) = max 0 (min 1 (ep / 100)) then
            min 1 (max 0 (min 1 (sp / 100)) + 0.01)
          else max (max 0 (min 1 (sp / 100))) (max 0 (min 1 (ep / 100)))) := by
    intro sp ep h
    rw [globalWindow, if_pos h]
    dsimp only
    set a := max 0 (min 1 (sp / 100)) with ha
    set b := max 0 (min 1 (ep / 100)) with hb
    by_cases hab : a > b
    · simp only [if_pos hab]
      have h1 : min a b = b := min_eq_right (le_of_lt hab)
      have h2 : max a b = a := max_eq_left (le_of_lt hab)
      have h3 : b ≠ a := ne_of_lt hab
      have h4 : a ≠ b := (ne_of_lt hab).symm
      rw [if_neg h3, h1, if_neg h4, h2]
    · simp only [if_neg hab]
      have hle : a ≤ b := not_lt.mp hab
      have h1 : min a b = a := min_eq_left hle
      have h2 : max a b = b := max_eq_right hle
      rw [h1, h2]
  refine ⟨?_, hchar, ?_, ?_, fun w path => rfl, fun path => rfl⟩
  · intro sp ep
    constructor
    · intro hs
      by_contra hno
      rw [globalWindow, if_neg hno] at hs
      simp at hs
    · intro h
      rw [hchar sp ep h]
      rfl
  · rw [hchar 80 20 (by norm_num)]
    norm_num
  · rw [hchar 50 50 (by norm_num)]
    norm_num

/-! ### Claim C2: the per-frame visibility state machine (corrected) -/

/-- C2 as frozen is false on the code: a `static` path whose window is
degenerate (`end ≤ start`) with `global_t ≥ start` is NOT drawn at
parameter 0 with rotation 0 (the claim's catch-all for `end ≤ start`); the
code's `elif static` branch runs first and holds the END pose.  Concretely:
`static`, window `[0.5, 0.5]`, `global_t = 0.5`, `rotation_speed = 1` on
the path `(0,0)-(10,0)` renders at `(10, 0)` with rotation `360`. -/
theorem C2_counterexample :
    renderDecision [⟨0, 0⟩, ⟨10, 0⟩] "linear" "static" 0.5 0.5 0.5 1 =
      some (⟨10, 0⟩, 360) ∧
    renderDecision [⟨0, 0⟩, ⟨10, 0⟩] "linear" "static" 0.5 0.5 0.5 1 ≠
      some (interpolate_path [⟨0, 0⟩, ⟨10, 0⟩] 0, 0) := by
  have h1 : renderDecision [(⟨0, 0⟩ : Pt), ⟨10, 0⟩] "linear" "static" 0.5 0.5 0.5 1 =
      some (⟨10, 0⟩, 360) := by
    rw [renderDecision]
    rw [if_neg (show ¬(([⟨0, 0⟩, ⟨10, 0⟩] : List Pt).length = 0) by simp)]
    simp only
    rw [if_neg (show ¬(("static" : String) = "pop" ∧
        ¬((0.5 : ℝ) ≤ 0.5 ∧ (0.5 : ℝ) ≤ 0.5)) by simp)]
    rw [if_neg (show ¬(((0.5 : ℝ) ≤ 0.5 ∧ (0.5 : ℝ) ≤ 0.5) ∧ (0.5 : ℝ) > 0.5) by norm_num)]
    norm_num [interpolate_one]
  refine ⟨h1, ?_⟩
  rw [h1, interpolate_zero]
  intro hcontra
  rw [Option.some.injEq, Prod.mk.injEq, Pt.mk.injEq] at hcontra
  exact absurd hcontra.1.1 (by norm_num)

/-- C2 amended: skipping happens iff `visibilityMode = pop` and `global_t`
is outside `[start, end]`; inside a non-degenerate window every path
animates with easing and rotation `rotation_speed * eased_t * 360`; outside
the animate case a `static` path holds the START pose (`t = 0`, rotation 0)
when `global_t < start` and otherwise the END pose (`t = 1`, rotation
`rotation_speed * 360`) — including when `end ≤ start`; every remaining
non-`static` case renders the fallback pose (`t = 0`, rotation 0). -/
theorem C2_visibility_state_machine (points : List Pt) (interp visMode : String)
    (s e g r : ℝ) (hne : points ≠ []) :
    (renderDecision points interp visMode s e g r = none ↔
      (visMode = "pop" ∧ ¬(s ≤ g ∧ g ≤ e))) ∧
    ((s ≤ g ∧ g ≤ e) → e > s →
      renderDecision points interp visMode s e g r =
        some (interpolate_path points (apply_interpolation ((g - s) / (e - s)) interp),
          r * apply_interpolation ((g - s) / (e - s)) interp * 360)) ∧
    (¬((s ≤ g ∧ g ≤ e) ∧ e > s) → visMode = "static" → g < s →
      renderDecision points interp visMode s e g r =
        some (interpolate_path points 0, 0)) ∧
    (¬((s ≤ g ∧ g ≤ e) ∧ e > s) → visMode = "static" → ¬(g < s) →
      renderDecision points interp visMode s e g r =
        some (interpolate_path points 1, r * 360)) ∧
    (¬((s ≤ g ∧ g ≤ e) ∧ e > s) → ¬(visMode = "pop" ∧ ¬(s ≤ g ∧ g ≤ e)) →
      visMode ≠ "static" →
      renderDecision points interp visMode s e g r =
        some (interpolate_path points 0, 0)) := by
  have hlen : ¬(points.length = 0) := by
    simpa [List.length_eq_zero] using hne
  refine ⟨?_, ?_, ?_, ?_, ?_⟩
  · rw [renderDecision, if_neg hlen]
    simp only
    by_cases hskip : visMode = "pop" ∧ ¬(s ≤ g ∧ g ≤ e)
    · rw [if_pos hskip]
      simp [hskip]
    · rw [if_neg hskip]
      split_ifs <;> simp [hskip] <;>
        exact fun hpop => by_contra fun hnin => hskip ⟨hpop, hnin⟩
  · intro hin hlt
    rw [renderDecision, if_neg hlen]
    simp only
    rw [if_neg (fun hand => hand.2 hin), if_pos ⟨hin, hlt⟩]
  · intro hnanim hstatic hg
    rw [renderDecision, if_neg hlen]
    simp only
    rw [if_neg (fun hand => (by simp [hstatic] at hand : False)),
      if_neg hnanim, if_pos hstatic, if_pos hg]
  · intro hnanim hstatic hg
    rw [renderDecision, if_neg hlen]
    simp only
    rw [if_neg (fun hand => (by simp [hstatic] at hand : False)),
      if_neg hnanim, if_pos hstatic, if_neg hg]
  · intro hnanim hnskip hnstatic
    rw [renderDecision, if_neg hlen]
    simp only
    rw [if_neg hnskip, if_neg hnanim, if_neg hnstatic]

/-- Witness for the amended C2 at the single-point path `[(1,1)]`,
`pop` mode, window `[0, 1]`, `global_t = 2`, rotation speed 0. -/
theorem C2_witness :
    ([⟨1, 1⟩] : List Pt) ≠ [] ∧
      (renderDecision [⟨1, 1⟩] "linear" "pop" 0 1 2 0 = none ↔
        (("pop" : String) = "pop" ∧ ¬((0 : ℝ) ≤ 2 ∧ (2 : ℝ) ≤ 1))) :=
  ⟨by simp,
    (C2_visibility_state_machine [⟨1, 1⟩] "linear" "pop" 0 1 2 0 (by simp)).1⟩

/-! ### Claim C5: delta-based path length rescaling -/

lemma segLen_scaled (prev origPrev p : Pt) (k : ℝ) :
    segLen prev ⟨prev.x + (p.x - origPrev.x) * k, prev.y + (p.y - origPrev.y) * k⟩ =
      |k| * segLen origPrev p := by
  unfold segLen
  dsimp only
  rw [show prev.x + (p.x - origPrev.x) * k - prev.x = k * (p.x - origPrev.x) by ring,
    show prev.y + (p.y - origPrev.y) * k - prev.y = k * (p.y - origPrev.y) by ring,
    show k * (p.x - origPrev.x) * (k * (p.x - origPrev.x)) +
        k * (p.y - origPrev.y) * (k * (p.y - origPrev.y)) =
      k ^ 2 * ((p.x - origPrev.x) * (p.x - origPrev.x) +
        (p.y - origPrev.y) * (p.y - origPrev.y)) by ring,
    Real.sqrt_mul (sq_nonneg _), Real.sqrt_sq_eq_abs]

lemma arcLen_deltaScaleAux (k : ℝ) : ∀ (rest : List Pt) (prev origPrev : Pt),
    get_path_arc_length (prev :: deltaScaleAux k prev origPrev rest) =
      |k| * get_path_arc_length (origPrev :: rest)
  | [], prev, origPrev => by
    simp [deltaScaleAux, get_path_arc_length, segLens]
  | p :: rest, prev, origPrev => by
    rw [deltaScaleAux]
    rw [arcLen_cons_cons, arcLen_cons_cons origPrev p rest,
      arcLen_deltaScaleAux k rest _ p, segLen_scaled]
    ring

lemma arcLen_deltaScale (k : ℝ) : ∀ ps : List Pt,
    get_path_arc_length (deltaScale k ps) = |k| * get_path_arc_length ps
  | [] => by simp [deltaScale, get_path_arc_length, segLens]
  | p :: rest => by
    rw [deltaScale, arcLen_deltaScaleAux k rest p p]

/-- C5: with `target = (override if positive else original) * multiplier`,
an eligible motion path (more than one point, not a single-point anchor,
positive arc length) whose `|target - original| ≥ 1e-6` is replaced by the
delta-scaled points: same first point, arc length exactly `target`; a path
that is ineligible, has nonpositive arc length, or differs from the target
by less than `1e-6` is left unchanged; an override of 0 or less acts as no
override (positivity of the multiplier reflects its configured range
`[0.01, 100]`). -/
theorem C5_rescale_path (path : PathRec) (ov : ℤ) (mult : ℝ) (hmult : 0 < mult) :
    (¬(1 < path.points.length ∧ path.isSinglePoint = false) →
      rescalePath ov mult path = path) ∧
    (get_path_arc_length path.points ≤ 0 → rescalePath ov mult path = path) ∧
    (|(if 0 < ov then (ov : ℝ) else get_path_arc_length path.points) * mult -
        get_path_arc_length path.points| < 1 / 1000000 →
      rescalePath ov mult path = path) ∧
    ((1 < path.points.length ∧ path.isSinglePoint = false) →
      0 < get_path_arc_length path.points →
      1 / 1000000 ≤ |(if 0 < ov then (ov : ℝ) else get_path_arc_length path.points) * mult -
        get_path_arc_length path.points| →
      (rescalePath ov mult path).points =
        deltaScale (((if 0 < ov then (ov : ℝ) else get_path_arc_length path.points) * mult) /
          get_path_arc_length path.points) path.points ∧
      (rescalePath ov mult path).points.head? = path.points.head? ∧
      get_path_arc_length (rescalePath ov mult path).points =
        (if 0 < ov then (ov : ℝ) else get_path_arc_length path.points) * mult) := by
  have hbase : (if 0 < (if 0 < ov then ov else -1) then ((if 0 < ov then ov else -1 : ℤ) : ℝ)
      else get_path_arc_length path.points) =
      (if 0 < ov then (ov : ℝ) else get_path_arc_length path.points) := by
    by_cases hov : 0 < ov
    · simp only [if_pos hov]
    · simp only [if_neg hov]
      norm_num
  constructor
  · intro hinel
    rw [rescalePath, if_neg hinel]
  constructor
  · intro hle
    rw [rescalePath]
    by_cases hel : 1 < path.points.length ∧ path.isSinglePoint = false
    · rw [if_pos hel]
      dsimp only
      rw [if_pos hle]
    · rw [if_neg hel]
  constructor
  · intro hsmall
    rw [rescalePath]
    by_cases hel : 1 < path.points.length ∧ path.isSinglePoint = false
    · rw [if_pos hel]
      dsimp only
      by_cases hle : get_path_arc_length path.points ≤ 0
      · rw [if_pos hle]
      · rw [if_neg hle, hbase, if_pos hsmall]
    · rw [if_neg hel]
  · intro hel hpos hdiff
    set kf := ((if 0 < ov then (ov : ℝ) else get_path_arc_length path.points) * mult) /
      get_path_arc_length path.points with hkf
    have hscaled : rescalePath ov mult path = { path with points := deltaScale kf path.points } := by
      rw [rescalePath, if_pos hel]
      rw [if_neg (not_le.mpr hpos)]
      simp only [hbase]
      rw [if_neg (not_lt.mpr hdiff), hkf]
    refine ⟨by rw [hscaled], ?_, ?_⟩
    · rw [hscaled]
      rcases hps : path.points with _ | ⟨p, rest⟩
      · rfl
      · rw [deltaScale]
        rfl
    · rw [hscaled]
      dsimp only
      rw [arcLen_deltaScale]
      have htpos : 0 < (if 0 < ov then (ov : ℝ) else get_path_arc_length path.points) * mult := by
        apply mul_pos _ hmult
        by_cases hov : 0 < ov
        · rw [if_pos hov]
          exact_mod_cast hov
        · rw [if_neg hov]
          exact hpos
      rw [abs_of_pos (div_pos htpos hpos), div_mul_cancel₀ _ (ne_of_gt hpos)]

/-- Witness for C5 at the two-point path `(0,0)-(2,0)`, override `4`,
multiplier `1`. -/
theorem C5_witness :
    (0 : ℝ) < 1 ∧
      (¬(1 < ({ points := [⟨0, 0⟩, ⟨2, 0⟩] } : PathRec).points.length ∧
          ({ points := [⟨0, 0⟩, ⟨2, 0⟩] } : PathRec).isSinglePoint = false) →
        rescalePath 4 1 { points := [⟨0, 0⟩, ⟨2, 0⟩] } = { points := [⟨0, 0⟩, ⟨2, 0⟩] }) :=
  ⟨one_pos, (C5_rescale_path { points := [⟨0, 0⟩, ⟨2, 0⟩] } 4 1 one_pos).1⟩

/-! ### Claim C8: the three-point end-to-end scenario (corrected) -/

lemma segLen_horizontal (x1 x2 y : ℝ) : segLen ⟨x1, y⟩ ⟨x2, y⟩ = |x2 - x1| := by
  rw [segLen]
  dsimp only
  rw [show (x2 - x1) * (x2 - x1) + (y - y) * (y - y) = (x2 - x1) ^ 2 by ring,
    Real.sqrt_sq_eq_abs]

lemma segLen_vertical (x y1 y2 : ℝ) : segLen ⟨x, y1⟩ ⟨x, y2⟩ = |y2 - y1| := by
  rw [segLen]
  dsimp only
  rw [show (x - x) * (x - x) + (y2 - y1) * (y2 - y1) = (y2 - y1) ^ 2 by ring,
    Real.sqrt_sq_eq_abs]

lemma demo_scaled_points (s : ℝ) :
    (scalePath s s { points := [⟨0, 0⟩, ⟨10, 0⟩, ⟨10, 10⟩] }).points =
      [⟨0, 0⟩, ⟨10 * s, 0⟩, ⟨10 * s, 10 * s⟩] := by
  simp [scalePath, Pt.ext_iff]

lemma demo_arcLen (s : ℝ) (hs : 0 ≤ s) :
    get_path_arc_length [⟨0, 0⟩, ⟨10 * s, 0⟩, ⟨10 * s, 10 * s⟩] = 20 * s := by
  rw [arcLen_cons_cons, arcLen_pair, segLen_horizontal, segLen_vertical, sub_zero,
    abs_of_nonneg (show (0 : ℝ) ≤ 10 * s by positivity)]
  ring

lemma demo_decision (s : ℝ) (hs : 0 < s) (g : ℝ) (h0 : 0 ≤ g) (h1 : g ≤ 1) :
    renderDecision [⟨0, 0⟩, ⟨10 * s, 0⟩, ⟨10 * s, 10 * s⟩] "linear" "pop" 0 1 g 0 =
      some (pointAtArc [⟨0, 0⟩, ⟨10 * s, 0⟩, ⟨10 * s, 10 * s⟩] (g * (20 * s)), 0) := by
  rw [renderDecision, if_neg (by simp)]
  simp only
  rw [if_neg (show ¬(True ∧ ¬((0 : ℝ) ≤ g ∧ g ≤ 1)) from fun hand => hand.2 ⟨h0, h1⟩)]
  rw [if_pos (show ((0 : ℝ) ≤ g ∧ g ≤ 1) ∧ (1 : ℝ) > 0 from ⟨⟨h0, h1⟩, one_pos⟩)]
  have heased : apply_interpolation ((g - 0) / (1 - 0)) "linear" = g := by
    rw [apply_interpolation, if_neg (by decide : ¬("linear" : String) = "ease-in"),
      if_neg (by decide : ¬("linear" : String) = "ease-out"),
      if_neg (by decide : ¬("linear" : String) = "ease-in-out")]
    norm_num
  rw [heased, interpolate_eq_pointAtArc _ (by simp) g h0, demo_arcLen s hs.le]
  norm_num

lemma demo_frame1_position (s : ℝ) (hs : 0 < s) :
    pointAtArc [⟨0, 0⟩, ⟨10 * s, 0⟩, ⟨10 * s, 10 * s⟩] ((1 / 2) * (20 * s)) =
      ⟨10 * s, 0⟩ := by
  rw [show (1 / 2 : ℝ) * (20 * s) = 10 * s by ring, pointAtArc_cons_cons,
    segLen_horizontal, sub_zero, abs_of_nonneg (by positivity),
    if_pos le_rfl, if_pos (by positivity), div_self (by positivity), lerpPt_one]

/-- C8 as frozen is false on the code: with the three-point path
`(0,0),(10,0),(10,10)`, `frame_count = 3`, default timeline and default
visibility, the middle frame renders at the arc-length midpoint, which is
the END of the first segment `(10, 0)` (total length 20, half-length 10) —
not `(5, 0)` as the claim states. -/
theorem C8_counterexample :
    renderDecision [⟨0, 0⟩, ⟨10, 0⟩, ⟨10, 10⟩] "linear" "pop" 0 1 (frameGlobalT 1 3) 0 =
      some (⟨10, 0⟩, 0) ∧
    renderDecision [⟨0, 0⟩, ⟨10, 0⟩, ⟨10, 10⟩] "linear" "pop" 0 1 (frameGlobalT 1 3) 0 ≠
      some (⟨5, 0⟩, 0) := by
  have hpts : ([⟨0, 0⟩, ⟨10, 0⟩, ⟨10, 10⟩] : List Pt) =
      [⟨0, 0⟩, ⟨10 * 1, 0⟩, ⟨10 * 1, 10 * 1⟩] := by
    norm_num
  have hg : frameGlobalT 1 3 = 1 / 2 := by
    rw [frameGlobalT]
    norm_num
  have h1 : renderDecision [(⟨0, 0⟩ : Pt), ⟨10, 0⟩, ⟨10, 10⟩] "linear" "pop" 0 1
      (frameGlobalT 1 3) 0 = some (⟨10, 0⟩, 0) := by
    rw [hpts, hg, demo_decision 1 one_pos (1 / 2) (by norm_num) (by norm_num),
      demo_frame1_position 1 one_pos]
    norm_num
  refine ⟨h1, ?_⟩
  rw [h1]
  intro hcontra
  rw [Option.some.injEq, Prod.mk.injEq, Pt.mk.injEq] at hcontra
  exact absurd hcontra.1.1 (by norm_num)

/-- C8 amended: for the path `(0,0),(10,0),(10,10)` scaled uniformly into
frame space by `s > 0`, with `frame_count = 3`, default timeline and
default (`pop`) visibility: frame 0 renders at `(0,0)` scaled, frame 1 at
the arc-length midpoint `(10, 0)` scaled (total length `20`; half-length
`10` lands exactly at the end of the first segment), and frame 2 at
`(10, 10)` scaled. -/
theorem C8_three_point_scenario (s : ℝ) (hs : 0 < s) :
    renderDecision (scalePath s s { points := [⟨0, 0⟩, ⟨10, 0⟩, ⟨10, 10⟩] }).points
      "linear" "pop" 0 1 (frameGlobalT 0 3) 0 = some (⟨0, 0⟩, 0) ∧
    renderDecision (scalePath s s { points := [⟨0, 0⟩, ⟨10, 0⟩, ⟨10, 10⟩] }).points
      "linear" "pop" 0 1 (frameGlobalT 1 3) 0 = some (⟨10 * s, 0⟩, 0) ∧
    renderDecision (scalePath s s { points := [⟨0, 0⟩, ⟨10, 0⟩, ⟨10, 10⟩] }).points
      "linear" "pop" 0 1 (frameGlobalT 2 3) 0 = some (⟨10 * s, 10 * s⟩, 0) := by
  have h0 : frameGlobalT 0 3 = 0 := by
    rw [frameGlobalT]
    norm_num
  have h1 : frameGlobalT 1 3 = 1 / 2 := by
    rw [frameGlobalT]
    norm_num
  have h2 : frameGlobalT 2 3 = 1 := by
    rw [frameGlobalT]
    norm_num
  rw [demo_scaled_points, h0, h1, h2]
  refine ⟨?_, ?_, ?_⟩
  · rw [demo_decision s hs 0 le_rfl zero_le_one, zero_mul, pointAtArc_zero]
  · rw [demo_decision s hs (1 / 2) (by norm_num) (by norm_num), demo_frame1_position s hs]
  · rw [demo_decision s hs 1 zero_le_one le_rfl, one_mul, ← demo_arcLen s hs.le,
      pointAtArc_arcLen]
    rfl

/-- Witness for the amended C8 at scale `s = 1`. -/
theorem C8_witness :
    (0 : ℝ) < 1 ∧
      renderDecision (scalePath 1 1 { points := [⟨0, 0⟩, ⟨10, 0⟩, ⟨10, 10⟩] }).points
        "linear" "pop" 0 1 (frameGlobalT 0 3) 0 = some (⟨0, 0⟩, 0) :=
  ⟨one_pos, (C8_three_point_scenario 1 one_pos).1⟩

/-! ### Claim C10: empty-points paths -/

/-- C10: a path record with an empty points list is never drawn (the
renderer's `continue` fires on every frame), yet the exporter still emits
one track for it, in input order — the empty track, with 0 points rather
than 121. -/
theorem C10_empty_points_path (path : PathRec) (gw : Option (ℝ × ℝ))
    (hempty : path.points = []) :
    (∀ (interp visMode : String) (s e g r : ℝ),
      renderDecision path.points interp visMode s e g r = none) ∧
    exportTrack gw path = [] ∧
    (∀ (paths : List PathRec) (i : ℕ), paths[i]? = some path →
      (coordTracks gw paths)[i]? = some []) := by
  have htrack : exportTrack gw path = [] := by
    rcases gw with _ | ⟨gs, ge⟩ <;>
      simp [exportTrack, hempty, resample_path_uniform]
  refine ⟨?_, htrack, ?_⟩
  · intro interp visMode s e g r
    rw [hempty, renderDecision,
      if_pos (show ([] : List Pt).length = 0 from rfl)]
  · intro paths i hi
    rw [coordTracks, List.getElem?_map, hi, Option.map_some', htrack]

/-- Witness for C10 at the empty-points record with no global window. -/
theorem C10_witness :
    ({ points := [] } : PathRec).points = [] ∧
      exportTrack none { points := [] } = [] :=
  ⟨rfl, (C10_empty_points_path { points := [] } none rfl).2.1⟩

/-! ### Claim C9: error handling (code bug in `parse_color`) -/

/-- C9's "no user-visible fatal error" is false on the code: a
comma-containing color string with a non-integer part (here `"1,x"`) makes
`parse_color` run `int('x')`, whose `ValueError` nothing catches —
`animate_paths` parses the three colors first, so the whole call dies.
The spec (section 7) documents color-parse failure as recovered with a
default, so the code contradicts its own documentation. -/
theorem C9_color_crash (namedColor? : List Char → Option (ℤ × ℤ × ℤ)) :
    parse_color namedColor? ['1', ',', 'x'] = .error () ∧
    (∀ (bg border : List Char) (parsedPaths : Except Unit (List PathRec))
      (frame_count : ℕ) (sx sy sp ep : ℝ) (ov : ℤ) (mult rot : ℝ),
      animate_paths namedColor? ['1', ',', 'x'] bg border parsedPaths
        frame_count sx sy sp ep ov mult rot = .error ()) := by
  have hc : parse_color namedColor? ['1', ',', 'x'] = .error () := by
    rw [parse_color, if_pos (by decide)]
    rfl
  refine ⟨hc, ?_⟩
  intro bg border parsedPaths frame_count sx sy sp ep ov mult rot
  rw [animate_paths.eq_def, hc]

/-! ### Claim C4: the exported coordinate tracks -/

lemma pyRound_intCast (n : ℤ) : pyRound ((n : ℤ) : ℝ) = n := by
  rw [pyRound, Int.fract_intCast, if_neg (by norm_num), round_intCast]

lemma globalWindow_25_75 : globalWindow 25 75 = some (0.25, 0.75) := by
  rw [globalWindow, if_pos (by norm_num)]
  norm_num [min_def, max_def]

lemma exportTrack_length (gw : Option (ℝ × ℝ)) (path : PathRec)
    (h : path.points ≠ []) : (exportTrack gw path).length = 121 := by
  rw [exportTrack.eq_def]
  rcases gw with _ | ⟨gs, ge⟩
  · rw [List.length_map, resample_length _ h]
  · dsimp only
    rw [List.length_map]
    split_ifs with h1 h2 h3 h4 <;>
      first
        | exact resample_length _ h 121
        | exact resample_length _ (List.length_pos.mp (by omega)) 121

/-- C4: every nonempty-points path yields exactly one exported track of
exactly 121 rounded points, tracks in input path order; and in the
windowing scenario — a two-point path under the active override
`[0.25, 0.75]` (from percents 25 and 75) — the track is the slice from
index `round(0.25*120) = 30` to `round(0.75*120) = 90` of the original
121-point resampling, re-resampled to 121 points, whose first and last
points are the original resampling's samples at arc fractions 0.25 and
0.75. -/
theorem C4_export_track (p q : Pt) (hpq : 0 < segLen p q) :
    (∀ (gw : Option (ℝ × ℝ)) (paths : List PathRec),
      coordTracks gw paths = paths.map (exportTrack gw)) ∧
    (∀ (gw : Option (ℝ × ℝ)) (path : PathRec), path.points ≠ [] →
      (exportTrack gw path).length = 121) ∧
    globalWindow 25 75 = some (0.25, 0.75) ∧
    (exportTrack (some (0.25, 0.75)) { points := [p, q] })[0]? =
      ((resample_path_uniform [p, q] 121)[30]?).map roundPt ∧
    (exportTrack (some (0.25, 0.75)) { points := [p, q] })[120]? =
      ((resample_path_uniform [p, q] 121)[90]?).map roundPt ∧
    (resample_path_uniform [p, q] 121)[30]? =
      some (pointAtArc [p, q] (0.25 * get_path_arc_length [p, q])) ∧
    (resample_path_uniform [p, q] 121)[90]? =
      some (pointAtArc [p, q] (0.75 * get_path_arc_length [p, q])) := by
  have hne : ([p, q] : List Pt) ≠ [] := by simp
  have hlen121 : (resample_path_uniform [p, q] 121).length = 121 :=
    resample_length _ hne 121
  have hstart : (pyRound ((0.25 : ℝ) * 120)).toNat = 30 := by
    rw [show (0.25 : ℝ) * 120 = ((30 : ℤ) : ℝ) by norm_num, pyRound_intCast]
    rfl
  have hend : (pyRound ((0.75 : ℝ) * 120)).toNat = 90 := by
    rw [show (0.75 : ℝ) * 120 = ((90 : ℤ) : ℝ) by norm_num, pyRound_intCast]
    rfl
  have hwlen : (((resample_path_uniform [p, q] 121).drop 30).take 61).length = 61 := by
    rw [List.length_take, List.length_drop, hlen121]
    omega
  have hwne : ((resample_path_uniform [p, q] 121).drop 30).take 61 ≠ [] :=
    List.length_pos.mp (by omega)
  have hwelem : ∀ k : ℕ, k < 61 →
      (((resample_path_uniform [p, q] 121).drop 30).take 61)[k]? =
        (resample_path_uniform [p, q] 121)[30 + k]? := by
    intro k hk
    rw [List.getElem?_take_of_lt hk, List.getElem?_drop]
  have hexport : exportTrack (some (0.25, 0.75)) { points := [p, q] } =
      (resample_path_uniform (((resample_path_uniform [p, q] 121).drop 30).take 61)
        121).map roundPt := by
    rw [exportTrack.eq_def]
    dsimp only
    rw [hstart, hend,
      if_pos (show 1 < ([p, q] : List Pt).length ∧ false = false from ⟨by simp, rfl⟩),
      if_neg (show ¬(90 ≤ 30) by norm_num),
      show (90 + 1 - 30 : ℕ) = 61 from rfl,
      if_pos (show 2 ≤ (((resample_path_uniform [p, q] 121).drop 30).take 61).length
        by rw [hwlen]; norm_num)]
  obtain ⟨w0, wtail, hw⟩ : ∃ w0 wtail,
      ((resample_path_uniform [p, q] 121).drop 30).take 61 = w0 :: wtail := by
    rcases hcase : ((resample_path_uniform [p, q] 121).drop 30).take 61 with _ | ⟨a, l⟩
    · exact absurd hcase hwne
    · exact ⟨a, l, rfl⟩
  have hlen61 : (w0 :: wtail).length = 61 := by
    rw [← hw, hwlen]
  have hres30 : (resample_path_uniform [p, q] 121)[30]? = some w0 := by
    have h00 := hwelem 0 (by norm_num)
    rw [hw] at h00
    simp at h00
    exact h00.symm
  have hres90 : (resample_path_uniform [p, q] 121)[90]? =
      some ((w0 :: wtail).getLast (by simp)) := by
    have h60 := hwelem 60 (by norm_num)
    rw [hw] at h60
    rw [← List.getLast?_eq_getLast _ (by simp), List.getLast?_eq_getElem?, hlen61,
      show (61 - 1 : ℕ) = 60 from rfl, h60]
  have hfirst : (exportTrack (some (0.25, 0.75)) { points := [p, q] })[0]? =
      ((resample_path_uniform [p, q] 121)[30]?).map roundPt := by
    rw [hexport, List.getElem?_map,
      resample_getElem _ hwne (show 0 < 121 by norm_num)]
    have h0 : (((0 : ℕ) : ℝ) / (((121 : ℕ) : ℝ) - 1)) *
        get_path_arc_length (((resample_path_uniform [p, q] 121).drop 30).take 61) = 0 := by
      norm_num
    rw [h0, hw, pointAtArc_zero, hres30]
  have hlast : (exportTrack (some (0.25, 0.75)) { points := [p, q] })[120]? =
      ((resample_path_uniform [p, q] 121)[90]?).map roundPt := by
    rw [hexport, List.getElem?_map,
      resample_getElem _ hwne (show 120 < 121 by norm_num)]
    have h1 : (((120 : ℕ) : ℝ) / (((121 : ℕ) : ℝ) - 1)) *
        get_path_arc_length (((resample_path_uniform [p, q] 121).drop 30).take 61) =
        get_path_arc_length (((resample_path_uniform [p, q] 121).drop 30).take 61) := by
      norm_num
    rw [h1, hw, pointAtArc_arcLen w0 wtail, hres90]
  have hfrac30 : (resample_path_uniform [p, q] 121)[30]? =
      some (pointAtArc [p, q] (0.25 * get_path_arc_length [p, q])) := by
    rw [resample_getElem [p, q] hne (show 30 < 121 by norm_num)]
    norm_num
  have hfrac90 : (resample_path_uniform [p, q] 121)[90]? =
      some (pointAtArc [p, q] (0.75 * get_path_arc_length [p, q])) := by
    rw [resample_getElem [p, q] hne (show 90 < 121 by norm_num)]
    norm_num
  exact ⟨fun gw paths => rfl, exportTrack_length, globalWindow_25_75,
    hfirst, hlast, hfrac30, hfrac90⟩

/-- Witness for C4 at the horizontal two-point path `(0,0)-(120,0)`. -/
theorem C4_witness :
    0 < segLen ⟨0, 0⟩ ⟨120, 0⟩ ∧
      globalWindow 25 75 = some (0.25, 0.75) :=
  ⟨by rw [segLen_horizontal]; norm_num,
    (C4_export_track ⟨0, 0⟩ ⟨120, 0⟩
      (by rw [segLen_horizontal]; norm_num)).2.2.1⟩

end
